import Mathlib

/-!
Verification of the portus wire-protocol codec (src/serialize/mod.rs) and
the CPL s-expression front-end (src/lang/ast.rs), as shallow embeddings.
Bytes are modelled as natural numbers below 256; u8 casts and u8 additions
wrap modulo 256 as in release-mode Rust; out-of-bounds slice indexing is
modelled by the distinguished outcome `DecOut.crash` (a Rust panic).
-/

namespace Ser

/-- Little-endian 4-byte encoding of a u32 (LittleEndian::write_u32). -/
def le32 (n : Nat) : List Nat :=
  [n % 256, n / 256 % 256, n / 65536 % 256, n / 16777216 % 256]

/-- Little-endian 8-byte encoding of a u64 (LittleEndian::write_u64). -/
def le64 (n : Nat) : List Nat :=
  [n % 256, n / 256 % 256, n / 65536 % 256, n / 16777216 % 256,
   n / 4294967296 % 256, n / 1099511627776 % 256,
   n / 281474976710656 % 256, n / 72057594037927936 % 256]

/-- Little-endian read of a u32 from the first four bytes of a list
(LittleEndian::read_u32; the transmute-based reads in RawMsg reinterpret
little-endian bytes the same way). -/
def r32 : List Nat → Nat
  | a :: b :: c :: d :: _ => a + 256 * b + 65536 * c + 16777216 * d
  | _ => 0

/-- Little-endian read of a u64 from the first eight bytes of a list. -/
def r64 : List Nat → Nat
  | a :: b :: c :: d :: e :: f :: g :: h :: _ =>
    a + 256 * b + 65536 * c + 16777216 * d + 4294967296 * e +
      1099511627776 * f + 281474976710656 * g + 72057594037927936 * h
  | _ => 0

/-- UTF-8 well-formedness of a byte list, as checked by std::str::from_utf8. -/
def validUtf8 : List Nat → Bool
  | [] => true
  | b :: rest =>
    if b < 128 then validUtf8 rest
    else if b < 194 then false
    else if b < 224 then
      match rest with
      | c :: r => decide (128 ≤ c ∧ c < 192) && validUtf8 r
      | [] => false
    else if b < 240 then
      match rest with
      | c :: d :: r =>
        (if b = 224 then decide (160 ≤ c ∧ c < 192)
         else if b = 237 then decide (128 ≤ c ∧ c < 160)
         else decide (128 ≤ c ∧ c < 192)) &&
        decide (128 ≤ d ∧ d < 192) && validUtf8 r
      | _ => false
    else if b < 245 then
      match rest with
      | c :: d :: e :: r =>
        (if b = 240 then decide (144 ≤ c ∧ c < 192)
         else if b = 244 then decide (128 ≤ c ∧ c < 144)
         else decide (128 ≤ c ∧ c < 192)) &&
        decide (128 ≤ d ∧ d < 192) && decide (128 ≤ e ∧ e < 192) && validUtf8 r
      | _ => false
    else false

/-- Modelled from the spec: `pattern::Pattern` (referenced by PatternMsg in
src/serialize/mod.rs) is not present under src/. Per spec §4.2.4 the codec
only requires that `len_bytes` gives the serialized length, `serialize`
writes exactly that many bytes, and `deserialize` is the exact inverse, so
the pattern is modelled as its serialized byte string. -/
structure Pattern where
  bytes : List Nat
deriving DecidableEq

/-- Modelled from the spec: the length in bytes of the serialized pattern. -/
def Pattern.len_bytes (p : Pattern) : Nat := p.bytes.length

/-- Modelled from the spec: serialization writes exactly the pattern's bytes. -/
def Pattern.serialize (p : Pattern) : List Nat := p.bytes

/-- Modelled from the spec: deserialization is the exact inverse, reading the
whole byte region handed to it. -/
def Pattern.deserialize (b : List Nat) : Pattern := ⟨b⟩

structure CreateMsg where
  sid : Nat
  start_seq : Nat
  cong_alg : List Nat
deriving DecidableEq

structure MeasureMsg where
  sid : Nat
  ack : Nat
  rtt_us : Nat
  rin : Nat
  rout : Nat
deriving DecidableEq

structure DropMsg where
  sid : Nat
  event : List Nat
deriving DecidableEq

structure PatternMsg where
  sid : Nat
  pattern : Pattern
deriving DecidableEq

inductive Msg where
  | Cr (m : CreateMsg)
  | Dr (m : DropMsg)
  | Ms (m : MeasureMsg)
  | Pt (m : PatternMsg)
deriving DecidableEq

/-- RMsg::serialize: header (typ, len, sid) followed by the u32s, u64s and
byte regions of the message. Length bytes follow each get_hdr: the `as u8`
cast and u8 addition wrap modulo 256 (release semantics). -/
def serialize : Msg → List Nat
  | .Cr m => 0 :: ((6 + 4 + m.cong_alg.length % 256) % 256) ::
      (le32 m.sid ++ le32 m.start_seq ++ m.cong_alg)
  | .Ms m => 1 :: 30 ::
      (le32 m.sid ++ le32 m.ack ++ le32 m.rtt_us ++ le64 m.rin ++ le64 m.rout)
  | .Dr m => 2 :: ((6 + m.event.length % 256) % 256) :: (le32 m.sid ++ m.event)
  | .Pt m => 3 :: ((6 + m.pattern.len_bytes % 256) % 256) ::
      (le32 m.sid ++ m.pattern.serialize)

inductive DecErr where
  | io
  | utf8
  | unknownType
deriving DecidableEq

/-- Outcome of Msg::from_buf: a decoded message, a returned error, or a Rust
panic (`crash`, from out-of-bounds slice indexing or usize underflow). -/
inductive DecOut where
  | crash
  | err (e : DecErr)
  | ok (m : Msg)
deriving DecidableEq

/-- Msg::from_raw_msg together with the per-variant from_raw_msg bodies.
`typ`, `len`, `sid` come from the header; `bytes` is the remainder.
Slice expressions `&bytes[a..b]` crash unless a ≤ b ∧ b ≤ bytes.length;
`len as usize - 6` underflows (crashes) when len < 6. -/
def decodeRaw (typ len sid : Nat) (bytes : List Nat) : DecOut :=
  match typ with
  | 0 =>
    -- CreateMsg::from_raw_msg: get_bytes = &bytes[4..(len-6)], then utf8,
    -- then get_u32s = transmute(&bytes[0..4])
    if len < 6 then .crash
    else if len - 6 < 4 ∨ bytes.length < len - 6 then .crash
    else if validUtf8 ((bytes.drop 4).take (len - 6 - 4)) = false then .err .utf8
    else if bytes.length < 4 then .crash
    else .ok (.Cr ⟨sid, r32 bytes, (bytes.drop 4).take (len - 6 - 4)⟩)
  | 1 =>
    -- MeasureMsg::from_raw_msg: get_u32s = transmute(&bytes[0..8]),
    -- get_u64s = transmute(&bytes[8..24]); the length byte is never used
    if bytes.length < 8 then .crash
    else if bytes.length < 24 then .crash
    else .ok (.Ms ⟨sid, r32 bytes, r32 (bytes.drop 4), r64 (bytes.drop 8),
      r64 (bytes.drop 16)⟩)
  | 2 =>
    -- DropMsg::from_raw_msg: get_bytes = &bytes[0..(len-6)], then utf8
    if len < 6 then .crash
    else if bytes.length < len - 6 then .crash
    else if validUtf8 (bytes.take (len - 6)) then .ok (.Dr ⟨sid, bytes.take (len - 6)⟩)
    else .err .utf8
  | 3 =>
    -- PatternMsg::from_raw_msg: get_bytes = &bytes[0..(len-6)], then
    -- Pattern::deserialize on that region
    if len < 6 then .crash
    else if bytes.length < len - 6 then .crash
    else .ok (.Pt ⟨sid, Pattern.deserialize (bytes.take (len - 6))⟩)
  | _ => .err .unknownType

/-- Msg::from_buf: read the 6-byte header (Err on short input), then
dispatch on the type tag. -/
def Msg.from_buf (buf : List Nat) : DecOut :=
  match buf with
  | t :: l :: s0 :: s1 :: s2 :: s3 :: rest =>
    decodeRaw t l (s0 + 256 * s1 + 65536 * s2 + 16777216 * s3) rest
  | _ => .err .io

/-- A message is valid when its integer fields fit their Rust types, its
strings are well-formed UTF-8 (guaranteed by Rust's String type), and the
whole encoding fits the 255-byte frame imposed by the 1-byte length. -/
def validMsg : Msg → Bool
  | .Cr m => decide (m.sid < 4294967296) && decide (m.start_seq < 4294967296) &&
      validUtf8 m.cong_alg && decide (6 + 4 + m.cong_alg.length ≤ 255)
  | .Ms m => decide (m.sid < 4294967296) && decide (m.ack < 4294967296) &&
      decide (m.rtt_us < 4294967296) && decide (m.rin < 18446744073709551616) &&
      decide (m.rout < 18446744073709551616)
  | .Dr m => decide (m.sid < 4294967296) && validUtf8 m.event &&
      decide (6 + m.event.length ≤ 255)
  | .Pt m => decide (m.sid < 4294967296) && decide (6 + m.pattern.len_bytes ≤ 255)

end Ser

namespace Lang

/-- Parser input: the source byte string of Expr::new, one list element per
byte (all concrete inputs are ASCII, one char per byte). -/
abbrev Inp := List Char

/-- nom IResult: Done with remaining input, Error, or Incomplete. -/
inductive PRes (α : Type) where
  | done (rest : Inp) (val : α)
  | error
  | incomplete
deriving DecidableEq

/-- The distinguishable lang::Error values produced by the front-end. -/
inductive LErr where
  | unexpectedToken
  | staticType
  | parse
  | needMore
deriving DecidableEq

/-- lang::Result, the Result value carried inside a successful parse. -/
inductive LRes (α : Type) where
  | ok (val : α)
  | error (e : LErr)
deriving DecidableEq

inductive Prim where
  | Bool (b : Bool)
  | Name (s : String)
  | Num (n : Nat)
deriving DecidableEq

inductive Op where
  | Add
  | And
  | Bind
  | Div
  | Equiv
  | Gt
  | Lt
  | Max
  | MaxWrap
  | Min
  | Mul
  | Or
  | Sub
  | Reset
  | Def
  | If
  | NotIf
  | Ewma
deriving DecidableEq

inductive Command where
  | Fallthrough
  | Report
  | Reset
deriving DecidableEq

inductive Expr where
  | Atom (p : Prim)
  | Cmd (c : Command)
  | Sexp (o : Op) (l : Expr) (r : Expr)
deriving DecidableEq

/-- Whitespace accepted by nom's sp / multispace: space, tab, CR, LF. -/
def isSpChar (c : Char) : Bool :=
  c = ' ' || c = '\t' || c = '\n' || c = '\r'

/-- The separator eaten by ws!: any amount of whitespace, always succeeds. -/
def sp (i : Inp) : Inp := i.dropWhile isSpChar

def isDigitChar (c : Char) : Bool := decide ('0' ≤ c ∧ c ≤ '9')

/-- nom is_alphanumeric (ASCII) extended with the extra name characters. -/
def isNameChar (c : Char) : Bool :=
  decide ('0' ≤ c ∧ c ≤ '9') || decide ('a' ≤ c ∧ c ≤ 'z') ||
  decide ('A' ≤ c ∧ c ≤ 'Z') || c = '.' || c = '_'

/-- nom tag!: match a literal; Incomplete when the input is a proper prefix
of the tag. -/
def tagP (t : List Char) (i : Inp) : PRes Unit :=
  if t.isPrefixOf i then .done (i.drop t.length) ()
  else if i.isPrefixOf t then .incomplete
  else .error

/-- alt! of two tags, as used inside op; Incomplete short-circuits. -/
def tag2 (a b : List Char) (i : Inp) : PRes Unit :=
  match tagP a i with
  | .done r v => .done r v
  | .incomplete => .incomplete
  | .error => tagP b i

/-- nom multispace (take_while1 of whitespace, Done at end of input). -/
def multispaceP (i : Inp) : PRes Unit :=
  match i.takeWhile isSpChar with
  | [] => .error
  | _ :: _ => .done (i.dropWhile isSpChar) ()

/-- opt!(multispace) under ws!: the separator is eaten first, so the inner
multispace always fails and opt backtracks to the original input. -/
def optMsSep (i : Inp) : Inp :=
  match multispaceP (sp i) with
  | .done r _ => r
  | _ => i

def digitsVal (ds : List Char) : Nat :=
  ds.foldl (fun a c => a * 10 + (c.toNat - 48)) 0

/-- num: map_res of digit and u64::from_str; overflow makes the parser fail. -/
def num (i : Inp) : PRes Nat :=
  match i.takeWhile isDigitChar with
  | [] => .error
  | d :: ds =>
    if digitsVal (d :: ds) < 18446744073709551616 then
      .done (i.dropWhile isDigitChar) (digitsVal (d :: ds))
    else .error

/-- name: take_while1 of name characters, then the map_res reservation check:
identifiers beginning with two underscores make the parser fail. -/
def name (i : Inp) : PRes (List Char) :=
  match i.takeWhile isNameChar with
  | [] => .error
  | c :: cs =>
    if ['_', '_'].isPrefixOf (c :: cs) then .error
    else .done (i.dropWhile isNameChar) (c :: cs)

/-- atom: ws!-wrapped alt over true / false / +infinity / num / name; the
trailing sp is the whitespace eaten by ws! after the wrapped parser. -/
def atom (i0 : Inp) : PRes (LRes Expr) :=
  let i := sp i0
  match tagP "true".data i with
  | .done r _ => .done (sp r) (.ok (.Atom (.Bool true)))
  | .incomplete => .incomplete
  | .error =>
  match tagP "false".data i with
  | .done r _ => .done (sp r) (.ok (.Atom (.Bool false)))
  | .incomplete => .incomplete
  | .error =>
  match tagP "+infinity".data i with
  | .done r _ => .done (sp r) (.ok (.Atom (.Num 18446744073709551615)))
  | .incomplete => .incomplete
  | .error =>
  match num i with
  | .done r n => .done (sp r) (.ok (.Atom (.Num n)))
  | .incomplete => .incomplete
  | .error =>
  match name i with
  | .done r s => .done (sp r) (.ok (.Atom (.Name ⟨s⟩)))
  | .incomplete => .incomplete
  | .error => .error

/-- op: alt over the operator tokens in source order; the final branch runs
atom and maps any successful parse to an unexpected-token error value. -/
def op (i : Inp) : PRes (LRes Op) :=
  match tag2 "+".data "add".data i with
  | .done r _ => .done r (.ok .Add)
  | .incomplete => .incomplete
  | .error =>
  match tag2 "&&".data "and".data i with
  | .done r _ => .done r (.ok .And)
  | .incomplete => .incomplete
  | .error =>
  match tag2 ":=".data "bind".data i with
  | .done r _ => .done r (.ok .Bind)
  | .incomplete => .incomplete
  | .error =>
  match tagP "if".data i with
  | .done r _ => .done r (.ok .If)
  | .incomplete => .incomplete
  | .error =>
  match tag2 "/".data "div".data i with
  | .done r _ => .done r (.ok .Div)
  | .incomplete => .incomplete
  | .error =>
  match tag2 "==".data "eq".data i with
  | .done r _ => .done r (.ok .Equiv)
  | .incomplete => .incomplete
  | .error =>
  match tagP "ewma".data i with
  | .done r _ => .done r (.ok .Ewma)
  | .incomplete => .incomplete
  | .error =>
  match tag2 ">".data "gt".data i with
  | .done r _ => .done r (.ok .Gt)
  | .incomplete => .incomplete
  | .error =>
  match tag2 "<".data "lt".data i with
  | .done r _ => .done r (.ok .Lt)
  | .incomplete => .incomplete
  | .error =>
  match tagP "wrapped_max".data i with
  | .done r _ => .done r (.ok .MaxWrap)
  | .incomplete => .incomplete
  | .error =>
  match tagP "max".data i with
  | .done r _ => .done r (.ok .Max)
  | .incomplete => .incomplete
  | .error =>
  match tagP "min".data i with
  | .done r _ => .done r (.ok .Min)
  | .incomplete => .incomplete
  | .error =>
  match tag2 "*".data "mul".data i with
  | .done r _ => .done r (.ok .Mul)
  | .incomplete => .incomplete
  | .error =>
  match tag2 "||".data "or".data i with
  | .done r _ => .done r (.ok .Or)
  | .incomplete => .incomplete
  | .error =>
  match tagP "!if".data i with
  | .done r _ => .done r (.ok .NotIf)
  | .incomplete => .incomplete
  | .error =>
  match tag2 "-".data "sub".data i with
  | .done r _ => .done r (.ok .Sub)
  | .incomplete => .incomplete
  | .error =>
  match atom i with
  | .done r _ => .done r (.error .unexpectedToken)
  | .incomplete => .incomplete
  | .error => .error

/-- check_expr: Bind is exempt; every other operator rejects an If or NotIf
s-expression as its left operand. -/
def check_expr (o : Op) (l r : Expr) : LRes Expr :=
  match o with
  | .Bind => .ok (.Sexp o l r)
  | _ =>
    match l with
    | .Sexp .If _ _ => .error .staticType
    | .Sexp .NotIf _ _ => .error .staticType
    | _ => .ok (.Sexp o l r)

/-- command: ws!-wrapped '(' then one of the three command words then ')'. -/
def command (i0 : Inp) : PRes (LRes Expr) :=
  let i := sp i0
  match tagP "(".data i with
  | .incomplete => .incomplete
  | .error => .error
  | .done i1 _ =>
  let i2 := sp i1
  match tagP "fallthrough".data i2 with
  | .done r _ => commandClose r .Fallthrough
  | .incomplete => .incomplete
  | .error =>
  match tagP "report".data i2 with
  | .done r _ => commandClose r .Report
  | .incomplete => .incomplete
  | .error =>
  match tagP "reset".data i2 with
  | .done r _ => commandClose r .Reset
  | .incomplete => .incomplete
  | .error => .error
where
  commandClose (r : Inp) (c : Command) : PRes (LRes Expr) :=
    match tagP ")".data (sp r) with
    | .incomplete => .incomplete
    | .error => .error
    | .done i5 _ => .done (sp i5) (.ok (.Cmd c))

/-- sexp, parameterized by the parser used for the two operand expressions:
ws!-wrapped '(' op expr expr ')' with the opt!(multispace) steps, combining
the three parsed values through check_expr. -/
def sexpF (ex : Inp → PRes (LRes Expr)) (i0 : Inp) : PRes (LRes Expr) :=
  let i := sp i0
  match tagP "(".data i with
  | .incomplete => .incomplete
  | .error => .error
  | .done i1 _ =>
  match op (sp i1) with
  | .incomplete => .incomplete
  | .error => .error
  | .done i2 vop =>
  match ex (sp (optMsSep i2)) with
  | .incomplete => .incomplete
  | .error => .error
  | .done i3 vl =>
  match ex (sp (optMsSep i3)) with
  | .incomplete => .incomplete
  | .error => .error
  | .done i4 vr =>
  match tagP ")".data (sp i4) with
  | .incomplete => .incomplete
  | .error => .error
  | .done i5 _ =>
    .done (sp i5)
      (match vop with
       | .error e => .error e
       | .ok o =>
         match vl with
         | .error e => .error e
         | .ok l =>
           match vr with
           | .error e => .error e
           | .ok r => check_expr o l r)

/-- expr: alt_complete!(sexp | command | atom); Incomplete counts as failure
and the next branch is tried. The fuel bounds the nesting depth of sexp and
never runs out when it exceeds the input length. -/
def expr : Nat → Inp → PRes (LRes Expr)
  | 0, _ => .error
  | fuel + 1, i =>
    match sexpF (expr fuel) i with
    | .done r v => .done r v
    | _ =>
      match command i with
      | .done r v => .done r v
      | _ =>
        match atom i with
        | .done r v => .done r v
        | _ => .error

/-- sexp as in the source, with the expression parser at the given fuel. -/
def sexp (fuel : Nat) : Inp → PRes (LRes Expr) := sexpF (expr fuel)

/-- The iteration of many1! after its first success: accumulate further
matches, stopping at the first failure or at lack of progress. -/
def many1Loop : Nat → (Inp → PRes (LRes Expr)) → Inp → List (LRes Expr) →
    PRes (List (LRes Expr))
  | 0, _, i, acc => .done i acc
  | fl + 1, p, i, acc =>
    match p i with
    | .incomplete => .incomplete
    | .error => .done i acc
    | .done r v =>
      if r.length < i.length then many1Loop fl p r (acc ++ [v])
      else .done i acc

/-- exprs: many1!(expr). -/
def exprs (fuel : Nat) (i : Inp) : PRes (List (LRes Expr)) :=
  match expr fuel i with
  | .incomplete => .incomplete
  | .error => .error
  | .done r v => many1Loop fuel (expr fuel) r [v]

/-- Vec<Result<Expr>>::into_iter().collect::<Result<Vec<Expr>>>(): the first
error value wins. -/
def collectResults : List (LRes Expr) → LRes (List Expr)
  | [] => .ok []
  | .error e :: _ => .error e
  | .ok x :: rest =>
    match collectResults rest with
    | .error e => .error e
    | .ok xs => .ok (x :: xs)

/-- Expr::new: run exprs on the source, collect the results; nom Error and
Incomplete are turned into returned errors. -/
def Expr.new (i : Inp) : LRes (List Expr) :=
  match exprs (i.length + 1) i with
  | .done _ vs => collectResults vs
  | .error => .error .parse
  | .incomplete => .error .needMore

/-- Expr::desugar, written as a pure function on the tree. -/
def Expr.desugar : Expr → Expr
  | .Cmd .Fallthrough =>
    .Sexp .Bind (.Atom (.Name "__shouldContinue")) (.Atom (.Bool true))
  | .Cmd .Report =>
    .Sexp .Bind (.Atom (.Name "__shouldReport")) (.Atom (.Bool true))
  | .Cmd .Reset =>
    .Sexp .Reset (.Atom (.Bool false)) (.Atom (.Bool false))
  | .Atom p => .Atom p
  | .Sexp o l r => .Sexp o l.desugar r.desugar

/-- True when the tree has no node of variant Cmd. -/
def Expr.noCmd : Expr → Bool
  | .Atom _ => true
  | .Cmd _ => false
  | .Sexp _ l r => l.noCmd && r.noCmd

/-- True when the tree contains no Name beginning with two underscores. -/
def Expr.clean : Expr → Bool
  | .Atom (.Name s) => !(['_', '_'].isPrefixOf s.data)
  | .Atom _ => true
  | .Cmd _ => true
  | .Sexp _ l r => l.clean && r.clean

/-- True exactly for the conditional s-expressions, those whose operator is
If or NotIf. -/
def Expr.isCond : Expr → Bool
  | .Sexp .If _ _ => true
  | .Sexp .NotIf _ _ => true
  | _ => false

end Lang

theorem ser_r32_le32 (n : Nat) (t : List Nat) (h : n < 4294967296) :
    Ser.r32 (Ser.le32 n ++ t) = n := by
  simp [Ser.le32, Ser.r32]
  omega

theorem ser_r64_le64 (n : Nat) (t : List Nat) (h : n < 18446744073709551616) :
    Ser.r64 (Ser.le64 n ++ t) = n := by
  simp [Ser.le64, Ser.r64]
  omega

theorem ser_drop4_le32 (n : Nat) (t : List Nat) : (Ser.le32 n ++ t).drop 4 = t := by
  simp [Ser.le32]

theorem ser_drop8_le64 (n : Nat) (t : List Nat) : (Ser.le64 n ++ t).drop 8 = t := by
  simp [Ser.le64]

theorem ser_len_le32 (n : Nat) (t : List Nat) :
    (Ser.le32 n ++ t).length = 4 + t.length := by
  simp [Ser.le32]
  omega

theorem ser_len_le64 (n : Nat) (t : List Nat) :
    (Ser.le64 n ++ t).length = 8 + t.length := by
  simp [Ser.le64]
  omega

/-- C1: serializing any valid message (CreateMsg, MeasureMsg, DropMsg or
PatternMsg whose fields fit their types and whose encoding fits the
255-byte frame) and decoding the resulting buffer with Msg::from_buf
returns Ok of a message equal to the original. -/
theorem C1_encode_decode_roundtrip (m : Ser.Msg) (h : Ser.validMsg m = true) :
    Ser.Msg.from_buf (Ser.serialize m) = .ok m := by
  cases m with
  | Cr c =>
    obtain ⟨sid, ss, alg⟩ := c
    simp only [Ser.validMsg, Bool.and_eq_true, decide_eq_true_eq] at h
    obtain ⟨⟨⟨h1, h2⟩, h3⟩, h4⟩ := h
    have e1 : Ser.serialize (.Cr ⟨sid, ss, alg⟩) =
        0 :: ((6 + 4 + alg.length % 256) % 256) :: sid % 256 :: sid / 256 % 256 ::
          sid / 65536 % 256 :: sid / 16777216 % 256 :: (Ser.le32 ss ++ alg) := by
      simp [Ser.serialize, Ser.le32]
    rw [e1]
    simp only [Ser.Msg.from_buf]
    have hsid : sid % 256 + 256 * (sid / 256 % 256) + 65536 * (sid / 65536 % 256) +
        16777216 * (sid / 16777216 % 256) = sid := by omega
    have hL : (6 + 4 + alg.length % 256) % 256 = 10 + alg.length := by omega
    rw [hsid, hL]
    have hlen : (Ser.le32 ss ++ alg).length = 4 + alg.length := ser_len_le32 ss alg
    simp only [Ser.decodeRaw]
    rw [if_neg (by omega)]
    rw [if_neg (by rw [hlen]; omega)]
    rw [ser_drop4_le32]
    rw [show 10 + alg.length - 6 - 4 = alg.length from by omega]
    rw [List.take_length]
    rw [if_neg (by simp [h3])]
    rw [if_neg (by rw [hlen]; omega)]
    rw [ser_r32_le32 ss alg h2]
  | Dr c =>
    obtain ⟨sid, ev⟩ := c
    simp only [Ser.validMsg, Bool.and_eq_true, decide_eq_true_eq] at h
    obtain ⟨⟨h1, h2⟩, h3⟩ := h
    have e1 : Ser.serialize (.Dr ⟨sid, ev⟩) =
        2 :: ((6 + ev.length % 256) % 256) :: sid % 256 :: sid / 256 % 256 ::
          sid / 65536 % 256 :: sid / 16777216 % 256 :: ev := by
      simp [Ser.serialize, Ser.le32]
    rw [e1]
    simp only [Ser.Msg.from_buf]
    have hsid : sid % 256 + 256 * (sid / 256 % 256) + 65536 * (sid / 65536 % 256) +
        16777216 * (sid / 16777216 % 256) = sid := by omega
    have hL : (6 + ev.length % 256) % 256 = 6 + ev.length := by omega
    rw [hsid, hL]
    simp only [Ser.decodeRaw]
    rw [if_neg (by omega)]
    rw [if_neg (by omega)]
    rw [show 6 + ev.length - 6 = ev.length from by omega]
    rw [List.take_length]
    rw [if_pos h2]
  | Ms c =>
    obtain ⟨sid, ack, rtt, rin, rout⟩ := c
    simp only [Ser.validMsg, Bool.and_eq_true, decide_eq_true_eq] at h
    obtain ⟨⟨⟨⟨h1, h2⟩, h3⟩, h4⟩, h5⟩ := h
    have e1 : Ser.serialize (.Ms ⟨sid, ack, rtt, rin, rout⟩) =
        1 :: 30 :: sid % 256 :: sid / 256 % 256 ::
          sid / 65536 % 256 :: sid / 16777216 % 256 ::
          (Ser.le32 ack ++ (Ser.le32 rtt ++ (Ser.le64 rin ++ Ser.le64 rout))) := by
      simp [Ser.serialize, Ser.le32]
    rw [e1]
    simp only [Ser.Msg.from_buf]
    have hsid : sid % 256 + 256 * (sid / 256 % 256) + 65536 * (sid / 65536 % 256) +
        16777216 * (sid / 16777216 % 256) = sid := by omega
    rw [hsid]
    have hlen : (Ser.le32 ack ++ (Ser.le32 rtt ++ (Ser.le64 rin ++ Ser.le64 rout))).length
        = 24 := by
      simp [Ser.le32, Ser.le64]
    simp only [Ser.decodeRaw]
    rw [if_neg (by rw [hlen]; omega)]
    rw [if_neg (by rw [hlen]; omega)]
    simp only [Ser.DecOut.ok.injEq, Ser.Msg.Ms.injEq, Ser.MeasureMsg.mk.injEq]
    refine ⟨trivial, ?_, ?_, ?_, ?_⟩
    · simp [Ser.le32, Ser.le64, Ser.r32]
      omega
    · simp [Ser.le32, Ser.le64, Ser.r32]
      omega
    · simp [Ser.le32, Ser.le64, Ser.r64]
      omega
    · simp [Ser.le32, Ser.le64, Ser.r64]
      omega
  | Pt c =>
    obtain ⟨sid, ⟨pb⟩⟩ := c
    simp only [Ser.validMsg, Ser.Pattern.len_bytes, Bool.and_eq_true,
      decide_eq_true_eq] at h
    obtain ⟨h1, h2⟩ := h
    have e1 : Ser.serialize (.Pt ⟨sid, ⟨pb⟩⟩) =
        3 :: ((6 + pb.length % 256) % 256) :: sid % 256 :: sid / 256 % 256 ::
          sid / 65536 % 256 :: sid / 16777216 % 256 :: pb := by
      simp [Ser.serialize, Ser.le32, Ser.Pattern.len_bytes, Ser.Pattern.serialize]
    rw [e1]
    simp only [Ser.Msg.from_buf]
    have hsid : sid % 256 + 256 * (sid / 256 % 256) + 65536 * (sid / 65536 % 256) +
        16777216 * (sid / 16777216 % 256) = sid := by omega
    have hL : (6 + pb.length % 256) % 256 = 6 + pb.length := by omega
    rw [hsid, hL]
    simp only [Ser.decodeRaw]
    rw [if_neg (by omega)]
    rw [if_neg (by omega)]
    rw [show 6 + pb.length - 6 = pb.length from by omega]
    rw [List.take_length]
    rfl

theorem C1_witness :
    Ser.validMsg (.Ms ⟨7, 1000, 25000, 1000000, 900000⟩) = true ∧
    Ser.Msg.from_buf (Ser.serialize (.Ms ⟨7, 1000, 25000, 1000000, 900000⟩)) =
      .ok (.Ms ⟨7, 1000, 25000, 1000000, 900000⟩) :=
  ⟨by decide, C1_encode_decode_roundtrip _ (by decide)⟩

set_option maxRecDepth 8192 in
/-- C2 (failing input): a CreateMsg whose cong_alg has 250 bytes would need a
260-byte message, over the 255-byte frame; RMsg::serialize does not fail but
returns a 260-byte buffer whose length byte has silently wrapped to 4. -/
theorem C2_overlong_create_encoded_not_rejected :
    (Ser.serialize (.Cr ⟨0, 0, List.replicate 250 97⟩)).length = 260 ∧
    (Ser.serialize (.Cr ⟨0, 0, List.replicate 250 97⟩)).getD 1 0 = 4 := by decide

set_option maxRecDepth 8192 in
/-- C3 (failing input): deleting the last byte of the valid 30-byte encoding
of a MeasureMsg makes Msg::from_buf panic (out-of-bounds slice in get_u64s)
instead of returning a Malformed error. -/
theorem C3_truncated_measure_decode_panics :
    Ser.Msg.from_buf ((Ser.serialize (.Ms ⟨7, 1000, 25000, 1000000, 900000⟩)).take 29) =
      .crash := by decide

/-- C9: decoding a tag-1 (Measure) buffer never consults the length byte at
offset 1: two buffers with equal session-id bytes and equal payloads of at
least 24 bytes but different length bytes decode to the same Ok MeasureMsg,
whose fields are read at fixed payload offsets 0, 4, 8 and 16. -/
theorem C9_measure_decode_ignores_length_byte (l1 l2 s0 s1 s2 s3 : Nat)
    (p : List Nat) (h : 24 ≤ p.length) :
    Ser.Msg.from_buf (1 :: l1 :: s0 :: s1 :: s2 :: s3 :: p) =
      Ser.Msg.from_buf (1 :: l2 :: s0 :: s1 :: s2 :: s3 :: p) ∧
    Ser.Msg.from_buf (1 :: l1 :: s0 :: s1 :: s2 :: s3 :: p) =
      .ok (.Ms ⟨s0 + 256 * s1 + 65536 * s2 + 16777216 * s3, Ser.r32 p,
        Ser.r32 (p.drop 4), Ser.r64 (p.drop 8), Ser.r64 (p.drop 16)⟩) := by
  have key : ∀ l : Nat, Ser.Msg.from_buf (1 :: l :: s0 :: s1 :: s2 :: s3 :: p) =
      .ok (.Ms ⟨s0 + 256 * s1 + 65536 * s2 + 16777216 * s3, Ser.r32 p,
        Ser.r32 (p.drop 4), Ser.r64 (p.drop 8), Ser.r64 (p.drop 16)⟩) := by
    intro l
    simp only [Ser.Msg.from_buf, Ser.decodeRaw]
    rw [if_neg (by omega), if_neg (by omega)]
  exact ⟨(key l1).trans (key l2).symm, key l1⟩

theorem C9_witness :
    Ser.Msg.from_buf (1 :: 30 :: 9 :: 0 :: 0 :: 0 :: List.replicate 24 5) =
      Ser.Msg.from_buf (1 :: 77 :: 9 :: 0 :: 0 :: 0 :: List.replicate 24 5) :=
  (C9_measure_decode_ignores_length_byte 30 77 9 0 0 0 (List.replicate 24 5)
    (by decide)).1

/-- C4 (counterexample): an s-expression with operator Bind and an If
s-expression as its left operand parses successfully; Expr::new returns the
tree instead of failing with a static error. -/
theorem C4_counterexample :
    Lang.Expr.new "(:= (if a b) c)".data =
      .ok [.Sexp .Bind (.Sexp .If (.Atom (.Name "a")) (.Atom (.Name "b")))
        (.Atom (.Name "c"))] := by decide

/-- C4 (amended): check_expr exempts Bind from the conditional-operand
check entirely: a Bind s-expression is accepted whatever its left operand,
including If and NotIf s-expressions; only operators other than Bind
reject a conditional left operand. -/
theorem C4_bind_allows_conditional_left (l r : Lang.Expr) :
    Lang.check_expr .Bind l r = .ok (.Sexp .Bind l r) := rfl

/-- C5: for every operator other than Bind, check_expr rejects an If or
NotIf s-expression as left operand with the StaticType error; moreover
the source "(:= x (if a b))" parses successfully while "(+ (if a b) c)"
fails with StaticType. -/
theorem C5_conditional_left_rejected_except_bind :
    (∀ (o : Lang.Op) (l r : Lang.Expr), o ≠ .Bind → l.isCond = true →
      Lang.check_expr o l r = .error .staticType) ∧
    Lang.Expr.new "(:= x (if a b))".data =
      .ok [.Sexp .Bind (.Atom (.Name "x"))
        (.Sexp .If (.Atom (.Name "a")) (.Atom (.Name "b")))] ∧
    Lang.Expr.new "(+ (if a b) c)".data = .error .staticType := by
  refine ⟨?_, by decide, by decide⟩
  intro o l r ho hl
  cases l with
  | Atom p => exact Bool.noConfusion hl
  | Cmd c => exact Bool.noConfusion hl
  | Sexp o2 a b =>
    cases o2 <;>
      first
        | exact Bool.noConfusion hl
        | cases o <;> first | exact absurd rfl ho | rfl

theorem C5_witness :
    Lang.check_expr .Add (.Sexp .If (.Atom (.Name "a")) (.Atom (.Name "b")))
      (.Atom (.Num 1)) = .error .staticType :=
  C5_conditional_left_rejected_except_bind.1 _ _ _ (by decide) (by decide)

/-- C7: desugar rewrites each Cmd node exactly as the table prescribes
(Fallthrough, Report and Reset become their primitive Bind/Reset forms),
and no Cmd node remains anywhere in a desugared tree. -/
theorem C7_desugar_table_and_no_cmd :
    (Lang.Expr.desugar (.Cmd .Fallthrough) =
       .Sexp .Bind (.Atom (.Name "__shouldContinue")) (.Atom (.Bool true)) ∧
     Lang.Expr.desugar (.Cmd .Report) =
       .Sexp .Bind (.Atom (.Name "__shouldReport")) (.Atom (.Bool true)) ∧
     Lang.Expr.desugar (.Cmd .Reset) =
       .Sexp .Reset (.Atom (.Bool false)) (.Atom (.Bool false))) ∧
    ∀ e : Lang.Expr, (Lang.Expr.desugar e).noCmd = true := by
  refine ⟨⟨rfl, rfl, rfl⟩, ?_⟩
  intro e
  induction e with
  | Atom p => rfl
  | Cmd c => cases c <;> rfl
  | Sexp o l r ihl ihr => simp [Lang.Expr.desugar, Lang.Expr.noCmd, ihl, ihr]

/-- C8: on the input "(+ 10 20))" the exprs parser consumes through the
matched close-paren, returns the single expression Sexp(Add, 10, 20) and
leaves the trailing ")" unconsumed; Expr::new succeeds on that input. -/
theorem C8_trailing_paren_left_unconsumed :
    Lang.exprs ("(+ 10 20))".data.length + 1) "(+ 10 20))".data =
      .done ")".data [.ok (.Sexp .Add (.Atom (.Num 10)) (.Atom (.Num 20)))] ∧
    Lang.Expr.new "(+ 10 20))".data =
      .ok [.Sexp .Add (.Atom (.Num 10)) (.Atom (.Num 20))] :=
  ⟨by decide, by decide⟩

/-- C10: an If or NotIf s-expression is accepted as the right operand of
every operator: whenever the left operand is not a conditional, check_expr
succeeds whatever the right operand is, and "(+ 1 (if a b))" parses. -/
theorem C10_conditional_right_operand_accepted :
    (∀ (o : Lang.Op) (l r : Lang.Expr), l.isCond = false →
      Lang.check_expr o l r = .ok (.Sexp o l r)) ∧
    Lang.Expr.new "(+ 1 (if a b))".data =
      .ok [.Sexp .Add (.Atom (.Num 1))
        (.Sexp .If (.Atom (.Name "a")) (.Atom (.Name "b")))] := by
  refine ⟨?_, by decide⟩
  intro o l r hl
  cases o <;> try rfl
  all_goals
    cases l with
    | Atom p => rfl
    | Cmd c => rfl
    | Sexp o2 a b =>
      cases o2 <;> first | exact Bool.noConfusion hl | rfl

theorem C10_witness :
    Lang.check_expr .Add (.Atom (.Num 1))
      (.Sexp .If (.Atom (.Name "a")) (.Atom (.Name "b"))) =
      .ok (.Sexp .Add (.Atom (.Num 1))
        (.Sexp .If (.Atom (.Name "a")) (.Atom (.Name "b")))) :=
  C10_conditional_right_operand_accepted.1 _ _ _ (by decide)

theorem lang_name_not_reserved (i r : Lang.Inp) (s : List Char)
    (h : Lang.name i = .done r s) : ['_', '_'].isPrefixOf s = false := by
  unfold Lang.name at h
  split at h
  · exact Lang.PRes.noConfusion h
  · split at h
    · exact Lang.PRes.noConfusion h
    · rename_i hpre
      injection h with h1 h2
      subst h2
      exact Bool.eq_false_iff.mpr hpre

theorem lang_atom_clean (i r : Lang.Inp) (e : Lang.Expr)
    (h : Lang.atom i = .done r (.ok e)) : e.clean = true := by
  simp only [Lang.atom] at h
  split at h
  · injection h with h1 h2
    injection h2 with h3
    subst h3
    rfl
  · exact Lang.PRes.noConfusion h
  · split at h
    · injection h with h1 h2
      injection h2 with h3
      subst h3
      rfl
    · exact Lang.PRes.noConfusion h
    · split at h
      · injection h with h1 h2
        injection h2 with h3
        subst h3
        rfl
      · exact Lang.PRes.noConfusion h
      · split at h
        · injection h with h1 h2
          injection h2 with h3
          subst h3
          rfl
        · exact Lang.PRes.noConfusion h
        · split at h
          · rename_i s heq
            injection h with h1 h2
            injection h2 with h3
            subst h3
            have hres := lang_name_not_reserved _ _ _ heq
            simp [Lang.Expr.clean, hres]
          · exact Lang.PRes.noConfusion h
          · exact Lang.PRes.noConfusion h

theorem lang_command_clean (i r : Lang.Inp) (e : Lang.Expr)
    (h : Lang.command i = .done r (.ok e)) : e.clean = true := by
  simp only [Lang.command, Lang.command.commandClose] at h
  split at h
  · exact Lang.PRes.noConfusion h
  · exact Lang.PRes.noConfusion h
  · split at h
    · split at h
      · exact Lang.PRes.noConfusion h
      · exact Lang.PRes.noConfusion h
      · injection h with h1 h2
        injection h2 with h3
        subst h3
        rfl
    · exact Lang.PRes.noConfusion h
    · split at h
      · split at h
        · exact Lang.PRes.noConfusion h
        · exact Lang.PRes.noConfusion h
        · injection h with h1 h2
          injection h2 with h3
          subst h3
          rfl
      · exact Lang.PRes.noConfusion h
      · split at h
        · split at h
          · exact Lang.PRes.noConfusion h
          · exact Lang.PRes.noConfusion h
          · injection h with h1 h2
            injection h2 with h3
            subst h3
            rfl
        · exact Lang.PRes.noConfusion h
        · exact Lang.PRes.noConfusion h

theorem lang_check_expr_clean (o : Lang.Op) (l r e : Lang.Expr)
    (hl : l.clean = true) (hr : r.clean = true)
    (h : Lang.check_expr o l r = .ok e) : e.clean = true := by
  unfold Lang.check_expr at h
  split at h
  · injection h with h1
    subst h1
    simp [Lang.Expr.clean, hl, hr]
  · split at h
    · exact Lang.LRes.noConfusion h
    · exact Lang.LRes.noConfusion h
    · injection h with h1
      subst h1
      simp [Lang.Expr.clean, hl, hr]

theorem lang_sexpF_clean (ex : Lang.Inp → Lang.PRes (Lang.LRes Lang.Expr))
    (hex : ∀ j r e, ex j = .done r (.ok e) → e.clean = true)
    (i r : Lang.Inp) (e : Lang.Expr)
    (h : Lang.sexpF ex i = .done r (.ok e)) : e.clean = true := by
  simp only [Lang.sexpF] at h
  split at h
  · exact Lang.PRes.noConfusion h
  · exact Lang.PRes.noConfusion h
  · split at h
    · exact Lang.PRes.noConfusion h
    · exact Lang.PRes.noConfusion h
    · rename_i i2 vop hop
      split at h
      · exact Lang.PRes.noConfusion h
      · exact Lang.PRes.noConfusion h
      · rename_i i3 vl heq2
        split at h
        · exact Lang.PRes.noConfusion h
        · exact Lang.PRes.noConfusion h
        · rename_i i4 vr heq3
          split at h
          · exact Lang.PRes.noConfusion h
          · exact Lang.PRes.noConfusion h
          · injection h with h1 h2
            cases vop with
            | error e0 => exact Lang.LRes.noConfusion h2
            | ok o =>
              cases vl with
              | error e0 => exact Lang.LRes.noConfusion h2
              | ok l =>
                cases vr with
                | error e0 => exact Lang.LRes.noConfusion h2
                | ok rr =>
                  exact lang_check_expr_clean o l rr e
                    (hex _ _ _ heq2) (hex _ _ _ heq3) h2

theorem lang_expr_clean : ∀ (fuel : Nat) (i r : Lang.Inp) (e : Lang.Expr),
    Lang.expr fuel i = .done r (.ok e) → e.clean = true := by
  intro fuel
  induction fuel with
  | zero =>
    intro i r e h
    exact Lang.PRes.noConfusion h
  | succ n ih =>
    intro i r e h
    simp only [Lang.expr] at h
    split at h
    · rename_i r1 v1 heq
      injection h with h1 h2
      subst h2
      exact lang_sexpF_clean (Lang.expr n) ih i r1 e heq
    · split at h
      · rename_i r1 v1 heq
        injection h with h1 h2
        subst h2
        exact lang_command_clean i r1 e heq
      · split at h
        · rename_i r1 v1 heq
          injection h with h1 h2
          subst h2
          exact lang_atom_clean i r1 e heq
        · exact Lang.PRes.noConfusion h

theorem lang_many1Loop_clean :
    ∀ (fl : Nat) (p : Lang.Inp → Lang.PRes (Lang.LRes Lang.Expr)),
    (∀ j r e, p j = .done r (.ok e) → Lang.Expr.clean e = true) →
    ∀ (i : Lang.Inp) (acc : List (Lang.LRes Lang.Expr)) (r : Lang.Inp)
      (vs : List (Lang.LRes Lang.Expr)),
    (∀ v ∈ acc, ∀ e, v = .ok e → Lang.Expr.clean e = true) →
    Lang.many1Loop fl p i acc = .done r vs →
    ∀ v ∈ vs, ∀ e, v = .ok e → Lang.Expr.clean e = true := by
  intro fl
  induction fl with
  | zero =>
    intro p hp i acc r vs hacc h
    simp only [Lang.many1Loop] at h
    injection h with h1 h2
    subst h2
    exact hacc
  | succ n ih =>
    intro p hp i acc r vs hacc h
    simp only [Lang.many1Loop] at h
    split at h
    · exact Lang.PRes.noConfusion h
    · injection h with h1 h2
      subst h2
      exact hacc
    · rename_i r1 v1 heq
      split at h
      · refine ih p hp r1 (acc ++ [v1]) r vs ?_ h
        intro v hv e hve
        rcases List.mem_append.mp hv with hv1 | hv2
        · exact hacc v hv1 e hve
        · have hv1 : v = v1 := by simpa using hv2
          subst hv1
          rw [hve] at heq
          exact hp _ _ _ heq
      · injection h with h1 h2
        subst h2
        exact hacc

theorem lang_exprs_clean (fuel : Nat) (i r : Lang.Inp)
    (vs : List (Lang.LRes Lang.Expr)) (h : Lang.exprs fuel i = .done r vs) :
    ∀ v ∈ vs, ∀ e, v = .ok e → Lang.Expr.clean e = true := by
  simp only [Lang.exprs] at h
  split at h
  · exact Lang.PRes.noConfusion h
  · exact Lang.PRes.noConfusion h
  · rename_i r1 v1 heq
    refine lang_many1Loop_clean fuel (Lang.expr fuel)
      (fun j r e hh => lang_expr_clean fuel j r e hh) r1 [v1] r vs ?_ h
    intro v hv e hve
    have hv1 : v = v1 := by simpa using hv
    subst hv1
    rw [hve] at heq
    exact lang_expr_clean fuel i r1 e heq

theorem lang_collect_clean : ∀ (vs : List (Lang.LRes Lang.Expr)) (es : List Lang.Expr),
    (∀ v ∈ vs, ∀ e, v = .ok e → Lang.Expr.clean e = true) →
    Lang.collectResults vs = .ok es → ∀ e ∈ es, Lang.Expr.clean e = true := by
  intro vs
  induction vs with
  | nil =>
    intro es hv h e he
    injection h with h1
    subst h1
    exact absurd he (List.not_mem_nil e)
  | cons v rest ih =>
    intro es hv h e he
    cases v with
    | error e0 => exact Lang.LRes.noConfusion h
    | ok x =>
      simp only [Lang.collectResults] at h
      split at h
      · exact Lang.LRes.noConfusion h
      · rename_i xs heq
        injection h with h1
        subst h1
        rcases List.mem_cons.mp he with rfl | hmem
        · exact hv (.ok e) (List.mem_cons_self _ _) e rfl
        · exact ih xs (fun w hw => hv w (List.mem_cons_of_mem _ hw)) heq e hmem

/-- C6 (amended): the name parser rejects any identifier beginning with two
underscores, so Expr::new never returns Ok of a list of expressions in which
any Name begins with two underscores; a reserved token reached by the parser
makes the parse fail, though a reserved token lying entirely in the
unconsumed remainder of the input does not prevent success. -/
theorem C6_reserved_names_never_in_parse_result :
    ∀ (i : Lang.Inp) (es : List Lang.Expr), Lang.Expr.new i = .ok es →
      ∀ e ∈ es, Lang.Expr.clean e = true := by
  intro i es h e he
  simp only [Lang.Expr.new] at h
  split at h
  · rename_i r vs heq
    exact lang_collect_clean vs es (lang_exprs_clean _ _ _ _ heq) h e he
  · exact Lang.LRes.noConfusion h
  · exact Lang.LRes.noConfusion h

/-- C6 (counterexample): the source "a __x" contains the Name token __x,
which begins with two underscores, yet Expr::new returns Ok: many1 stops at
the failing token and Expr::new ignores the unconsumed remainder. -/
theorem C6_counterexample_reserved_token_in_leftover :
    Lang.Expr.new "a __x".data = .ok [.Atom (.Name "a")] := by decide

theorem C6_witness : Lang.Expr.clean (.Atom (.Name "x")) = true :=
  C6_reserved_names_never_in_parse_result "x".data [.Atom (.Name "x")]
    (by decide) (.Atom (.Name "x")) (by decide)
